import Mathlib

/-!
Verification of the isometric-scene core: coordinate transform, face/anchor
model, path router, depth resolver and particle sampler, shallowly embedded
from the TypeScript sources (src/unnamed/part_011, src/unnamed/part_007,
src/src/components/IsoEntity.ts, src/src/components/IsoConnector.ts).
Numbers are modelled as real numbers; where the JavaScript code divides,
the embedding divides (Lean real division returns 0 on a zero denominator,
and a separate predicate records exactly where the code divides by zero).
-/

namespace Iso

/-- A 3D logical isometric coordinate (the source's IsometricPosition). -/
@[ext]
structure IsometricPosition where
  x : ℝ
  y : ℝ
  z : ℝ

/-- A 2D screen-space offset (the source's ScreenPosition). -/
@[ext]
structure ScreenPosition where
  x : ℝ
  y : ℝ

/-- Camera angles in degrees (the source's runtimeAngles object). -/
structure AngleConfig where
  rotateX : ℝ
  rotateZ : ℝ

/-- Precomputed trigonometric values (the source's getTrigValues result). -/
structure TrigValues where
  cosZ : ℝ
  sinZ : ℝ
  cosX : ℝ
  sinX : ℝ

/-- Degrees to radians, as in `deg * Math.PI / 180`. -/
noncomputable def degToRad (deg : ℝ) : ℝ := deg * Real.pi / 180

/-- Embedding of getTrigValues (src/unnamed/part_011 lines 21-30). -/
noncomputable def getTrigValues (a : AngleConfig) : TrigValues :=
  { cosZ := Real.cos (degToRad a.rotateZ)
    sinZ := Real.sin (degToRad a.rotateZ)
    cosX := Real.cos (degToRad a.rotateX)
    sinX := Real.sin (degToRad a.rotateX) }

/-- Embedding of isoToScreen (src/unnamed/part_011 lines 83-102). -/
noncomputable def isoToScreen (a : AngleConfig) (pos : IsometricPosition)
    (scale : ℝ) (origin : ScreenPosition) : ScreenPosition :=
  let t := getTrigValues a
  let xRotZ := (pos.x - pos.y) * t.cosZ
  let yRotZ := (pos.x + pos.y) * t.sinZ
  let screenX := xRotZ
  let screenY := yRotZ * t.cosX - pos.z * t.sinX
  { x := screenX * scale + origin.x
    y := screenY * scale + origin.y }

/-- Embedding of screenToIso (src/unnamed/part_011 lines 122-140).
The function is total: it returns a coordinate record on every input,
performing plain divisions with no singularity check. -/
noncomputable def screenToIso (a : AngleConfig) (screen : ScreenPosition)
    (z scale : ℝ) (origin : ScreenPosition) : IsometricPosition :=
  let t := getTrigValues a
  let screenX := (screen.x - origin.x) / scale
  let screenY := (screen.y - origin.y) / scale + z * t.sinX
  let xMinusY := screenX / t.cosZ
  let xPlusY := screenY / (t.sinZ * t.cosX)
  { x := (xMinusY + xPlusY) / 2
    y := (xPlusY - xMinusY) / 2
    z := z }

/-- Records that one of the denominators screenToIso divides by is zero:
the code divides by `scale`, by `cosZ` and by `sinZ * cosX`, so on such a
configuration the JavaScript original produces Infinity or NaN silently. -/
noncomputable def screenToIsoDividesByZero (a : AngleConfig) (scale : ℝ) : Prop :=
  scale = 0 ∨ (getTrigValues a).cosZ = 0 ∨ (getTrigValues a).sinZ * (getTrigValues a).cosX = 0

/-- JavaScript Math.round: round half toward positive infinity. -/
noncomputable def jsRound (r : ℝ) : ℤ := ⌊r + 1 / 2⌋

/-- Embedding of calculateZIndex (src/unnamed/part_011 lines 157-169);
the `_depth` parameter is unused, as in the source. -/
noncomputable def calculateZIndex (pos : IsometricPosition)
    (_depth width height : ℝ) : ℤ :=
  let cornerX := pos.x + width / 2
  let cornerY := pos.y + height / 2
  jsRound ((cornerX + cornerY) * 10 + pos.z * 1)

/-- Normalized (u, v) grid coordinates on a face. -/
structure UV where
  u : ℝ
  v : ℝ

/-- Embedding of the POSITION_MAP lookup with the `|| POSITION_MAP.mc`
fallback: any string that is not one of the nine grid cells resolves to
the centre (0.5, 0.5). -/
noncomputable def positionUV (position : String) : UV :=
  if position = "tl" then ⟨0, 0⟩
  else if position = "tc" then ⟨0.5, 0⟩
  else if position = "tr" then ⟨1, 0⟩
  else if position = "ml" then ⟨0, 0.5⟩
  else if position = "mc" then ⟨0.5, 0.5⟩
  else if position = "mr" then ⟨1, 0.5⟩
  else if position = "bl" then ⟨0, 1⟩
  else if position = "bc" then ⟨0.5, 1⟩
  else if position = "br" then ⟨1, 1⟩
  else ⟨0.5, 0.5⟩

namespace Part007

/-- Local offset (dx, dy, dz) computed by the switch in
getFaceConnectionPoint of src/unnamed/part_007 (lines 172-219). The switch
has no default case, so an unrecognized face leaves the offset at zero. -/
noncomputable def localOffset (face position : String) (w h d : ℝ) :
    IsometricPosition :=
  let uv := positionUV position
  if face = "top" then ⟨w * (uv.u - 0.5), h * (uv.v - 0.5), d⟩
  else if face = "bottom" then ⟨w * (uv.u - 0.5), h * (uv.v - 0.5), 0⟩
  else if face = "front" then ⟨w * (uv.u - 0.5), h / 2, d * (1 - uv.v)⟩
  else if face = "back" then ⟨w * (uv.u - 0.5), -h / 2, d * (1 - uv.v)⟩
  else if face = "left" then ⟨-w / 2, h * (uv.u - 0.5), d * (1 - uv.v)⟩
  else if face = "right" then ⟨w / 2, h * (uv.u - 0.5), d * (1 - uv.v)⟩
  else ⟨0, 0, 0⟩

/-- Embedding of getFaceConnectionPoint of src/unnamed/part_007: the
entity position plus the local face offset. -/
noncomputable def getFaceConnectionPoint (pos : IsometricPosition)
    (w h d : ℝ) (face position : String) : IsometricPosition :=
  let o := localOffset face position w h d
  ⟨pos.x + o.x, pos.y + o.y, pos.z + o.z⟩

end Part007

namespace EntityTs

/-- Local offset computed by the switch in getFaceConnectionPoint of
src/src/components/IsoEntity.ts (lines 155-218). This revision maps the
left face to the y = +h/2 side (the same offsets as the front face);
the switch again has no default case. -/
noncomputable def localOffset (face position : String) (w h d : ℝ) :
    IsometricPosition :=
  let uv := positionUV position
  if face = "top" then ⟨w * (uv.u - 0.5), h * (uv.v - 0.5), d⟩
  else if face = "bottom" then ⟨w * (uv.u - 0.5), h * (uv.v - 0.5), 0⟩
  else if face = "left" then ⟨w * (uv.u - 0.5), h / 2, d * (1 - uv.v)⟩
  else if face = "right" then ⟨w / 2, h * (uv.u - 0.5), d * (1 - uv.v)⟩
  else if face = "front" then ⟨w * (uv.u - 0.5), h / 2, d * (1 - uv.v)⟩
  else if face = "back" then ⟨w * (uv.u - 0.5), -h / 2, d * (1 - uv.v)⟩
  else ⟨0, 0, 0⟩

/-- Embedding of getFaceConnectionPoint of src/src/components/IsoEntity.ts. -/
noncomputable def getFaceConnectionPoint (pos : IsometricPosition)
    (w h d : ℝ) (face position : String) : IsometricPosition :=
  let o := localOffset face position w h d
  ⟨pos.x + o.x, pos.y + o.y, pos.z + o.z⟩

end EntityTs

/-- Face-anchor offset table transcribed from the specification
(section 4.2), for comparison with the two source revisions. Defined only
on the six recognized face names; other names fall to zero, a value the
spec table never takes for positive dimensions on faces other than bottom. -/
noncomputable def specFaceOffset (face : String) (u v w h d : ℝ) :
    IsometricPosition :=
  if face = "top" then ⟨w * (u - 0.5), h * (v - 0.5), d⟩
  else if face = "bottom" then ⟨w * (u - 0.5), h * (v - 0.5), 0⟩
  else if face = "front" then ⟨w * (u - 0.5), h / 2, d * (1 - v)⟩
  else if face = "back" then ⟨w * (u - 0.5), -h / 2, d * (1 - v)⟩
  else if face = "left" then ⟨-w / 2, h * (u - 0.5), d * (1 - v)⟩
  else if face = "right" then ⟨w / 2, h * (u - 0.5), d * (1 - v)⟩
  else ⟨0, 0, 0⟩

/-- JavaScript `value || dflt` on an optionally-present string: undefined
and the empty string are falsy and fall back to the default. -/
def jsStringOr (s : Option String) (dflt : String) : String :=
  match s with
  | none => dflt
  | some t => if t = "" then dflt else t

/-- Splitting of a character list at every occurrence of a separator, the
semantics of the JavaScript `string.split(sep)` for a one-character
separator: the empty string yields one empty part, and consecutive
separators yield empty parts. -/
def jsSplit (sep : Char) : List Char → List (List Char)
  | [] => [[]]
  | c :: rest =>
    let r := jsSplit sep rest
    if c = sep then [] :: r
    else
      match r with
      | [] => [[c]]
      | h :: t => (c :: h) :: t

/-- Embedding of the private parseAnchor of src/src/components/IsoConnector.ts
(lines 420-426): split on a colon, defaulting an absent or empty face part
to "top" and an absent or empty position part to "mc". A non-empty
unrecognized face string passes through unchanged. -/
def parseAnchor (anchor : String) : String × String :=
  let parts := (jsSplit ':' anchor.data).map String.mk
  (jsStringOr parts[0]? "top", jsStringOr parts[1]? "mc")

/-- Route axis as in the connector's RouteAxis type. -/
inductive RouteAxis where
  | x
  | y
  | z
  deriving DecidableEq

/-- Axis tag carried by a segment: a route axis or the direct marker. -/
inductive SegAxis where
  | axis : RouteAxis → SegAxis
  | direct
  deriving DecidableEq

/-- The six box faces, as used by the route computation. -/
inductive FaceType where
  | top
  | bottom
  | front
  | back
  | left
  | right
  deriving DecidableEq

/-- A 3D line segment of a route (the connector's LineSegment3D); the
source field `end` is a Lean keyword and is embedded as `endPt`. -/
structure LineSegment3D where
  start : IsometricPosition
  endPt : IsometricPosition
  length : ℝ
  axis : SegAxis

/-- Embedding of the FACE_NORMALS table (IsoConnector.ts lines 323-330). -/
def FACE_NORMALS : FaceType → IsometricPosition
  | .top => ⟨0, 0, 1⟩
  | .bottom => ⟨0, 0, -1⟩
  | .front => ⟨0, 1, 0⟩
  | .back => ⟨0, -1, 0⟩
  | .left => ⟨-1, 0, 0⟩
  | .right => ⟨1, 0, 0⟩

/-- Embedding of the private getFaceAxis (IsoConnector.ts lines 710-715). -/
noncomputable def getFaceAxis (face : FaceType) : RouteAxis :=
  let normal := FACE_NORMALS face
  if 0.5 < |normal.z| then .z
  else if 0.5 < |normal.y| then .y
  else .x

/-- Recognizes a route-axis letter, mirroring `['x', 'z', 'y'].includes(d)`
together with the typing of the filter in parseRoute. -/
def axisOfString (s : String) : Option RouteAxis :=
  if s = "x" then some .x
  else if s = "z" then some .z
  else if s = "y" then some .y
  else none

/-- Embedding of the private parseRoute (IsoConnector.ts lines 720-725):
"auto" and "direct" give the full default order; any other string is split
on dashes and unrecognized letters are dropped. -/
def parseRoute (route : String) : List RouteAxis :=
  if route = "auto" ∨ route = "direct" then [.x, .z, .y]
  else (((jsSplit '-' route.data).map String.mk).filterMap axisOfString)

/-- Coordinate of a point along one axis, as `current[axis]`. -/
def getCoord (p : IsometricPosition) : RouteAxis → ℝ
  | .x => p.x
  | .y => p.y
  | .z => p.z

/-- Point with one coordinate replaced, as `end[axis] = target`. -/
def setCoord (p : IsometricPosition) : RouteAxis → ℝ → IsometricPosition
  | .x, r => ⟨r, p.y, p.z⟩
  | .y, r => ⟨p.x, r, p.z⟩
  | .z, r => ⟨p.x, p.y, r⟩

/-- The extension of an endpoint along a face normal, as computed by
`perpLen > 0 ? {x: p.x + normal.x * perpLen, ...} : {...p}` in updatePath. -/
noncomputable def extendPoint (p normal : IsometricPosition) (perpLen : ℝ) :
    IsometricPosition :=
  if 0 < perpLen then
    ⟨p.x + normal.x * perpLen, p.y + normal.y * perpLen, p.z + normal.z * perpLen⟩
  else p

/-- The axis-walk loop of updatePath (IsoConnector.ts lines 796-815):
walks the axes in order from `current`, emitting a segment for each axis
whose difference to the target is at least 0.1 in absolute value, and
returns the emitted segments together with the final current position. -/
noncomputable def walkLoop (toExtended : IsometricPosition) :
    List RouteAxis → IsometricPosition → List LineSegment3D × IsometricPosition
  | [], current => ([], current)
  | a :: rest, current =>
    let target := getCoord toExtended a
    let diff := target - getCoord current a
    if |diff| < 0.1 then walkLoop toExtended rest current
    else
      let next := setCoord current a target
      let result := walkLoop toExtended rest next
      ({ start := current, endPt := next, length := |diff|, axis := .axis a } :: result.1,
        result.2)

/-- The default full axis order `['x', 'z', 'y']`. -/
def allAxes : List RouteAxis := [.x, .z, .y]

/-- Embedding of the route computation of the private updatePath
(IsoConnector.ts lines 735-834), as a function of the resolved endpoints,
the route string, the two faces and the perpendicular extension length. -/
noncomputable def updatePath (fromIso toIso : IsometricPosition)
    (route : String) (fromFace toFace : FaceType)
    (perpendicularLength : ℝ) : List LineSegment3D :=
  if route = "direct" then
    let dx := toIso.x - fromIso.x
    let dy := toIso.y - fromIso.y
    let dz := toIso.z - fromIso.z
    let length := Real.sqrt (dx * dx + dy * dy + dz * dz)
    [{ start := fromIso, endPt := toIso, length := length, axis := .direct }]
  else
    let fromAxis := getFaceAxis fromFace
    let toAxis := getFaceAxis toFace
    let perpLen := perpendicularLength
    let fromExtended := extendPoint fromIso (FACE_NORMALS fromFace) perpLen
    let toExtended := extendPoint toIso (FACE_NORMALS toFace) perpLen
    let userAxes := parseRoute route
    let routeOrder := userAxes ++
      allAxes.filter (fun a : RouteAxis => !(userAxes.contains a))
    let mid := (walkLoop toExtended routeOrder fromExtended).1
    (if 0 < perpLen then
      [{ start := fromIso, endPt := fromExtended, length := perpLen, axis := .axis fromAxis }]
    else [])
    ++ mid
    ++ (if 0 < perpLen then
      [{ start := toExtended, endPt := toIso, length := perpLen, axis := .axis toAxis }]
    else [])

/-- Total path length, `segments.reduce((sum, seg) => sum + seg.length, 0)`. -/
noncomputable def totalPathLength (segments : List LineSegment3D) : ℝ :=
  segments.foldl (fun sum seg => sum + seg.length) 0

/-- The segment scan of the private getPositionAtProgress (IsoConnector.ts
lines 932-943): find the segment containing the target arclength and
linearly interpolate inside it; none when the scan runs past the end. -/
noncomputable def scanSegments :
    List LineSegment3D → ℝ → ℝ → Option IsometricPosition
  | [], _, _ => none
  | seg :: rest, target, acc =>
    if acc + seg.length ≥ target then
      let segmentProgress := (target - acc) / seg.length
      some ⟨seg.start.x + (seg.endPt.x - seg.start.x) * segmentProgress,
        seg.start.y + (seg.endPt.y - seg.start.y) * segmentProgress,
        seg.start.z + (seg.endPt.z - seg.start.z) * segmentProgress⟩
    else scanSegments rest target (acc + seg.length)

/-- Embedding of the private getPositionAtProgress (IsoConnector.ts lines
924-948): the constant origin for an empty segment list, otherwise the
scan result, falling back to the last segment's end point. -/
noncomputable def getPositionAtProgress (segments : List LineSegment3D)
    (totalLength progress : ℝ) : IsometricPosition :=
  match segments with
  | [] => ⟨0, 0, 0⟩
  | s :: rest =>
    match scanSegments (s :: rest) (progress * totalLength) 0 with
    | some p => p
    | none => ((s :: rest).getLast (List.cons_ne_nil s rest)).endPt

/-- Marks the inputs on which the scan of getPositionAtProgress divides by
zero: the selected segment's length, the only denominator in the loop, is
zero there, so the JavaScript original computes 0/0 = NaN. -/
noncomputable def scanDividesByZero : List LineSegment3D → ℝ → ℝ → Prop
  | [], _, _ => False
  | seg :: rest, target, acc =>
    if acc + seg.length ≥ target then seg.length = 0
    else scanDividesByZero rest target (acc + seg.length)

/-- A particle (the connector's Particle record). -/
structure Particle where
  id : ℕ
  progress : ℝ
  createdAt : ℝ

/-- Embedding of the forward-stream update of the private updateParticles
(IsoConnector.ts lines 903-908): advance every particle by speed times
elapsed time, then drop the particles whose progress exceeds 1. -/
noncomputable def stepForwardParticles (particles : List Particle)
    (particleSpeed deltaTime : ℝ) : List Particle :=
  (particles.map (fun p => { p with progress := p.progress + particleSpeed * deltaTime })).filter
    (fun p => decide (p.progress ≤ 1))

/-- Adjacent-segment continuity relation: a segment's end point is the
next segment's start point. -/
def SegLink (s t : LineSegment3D) : Prop := s.endPt = t.start

/-- Index form of route continuity: segment i ends where segment i+1
starts, for every valid index. -/
def SegmentsContinuous (segs : List LineSegment3D) : Prop :=
  ∀ i (h : i + 1 < segs.length),
    (segs.get ⟨i, Nat.lt_of_succ_lt h⟩).endPt = (segs.get ⟨i + 1, h⟩).start

/-- A segment list forms an unbroken polyline from p to q: each segment
starts where the previous one ended, the first at p and the last ending
at q (p = q for the empty list). -/
def LinkedFrom : IsometricPosition → List LineSegment3D → IsometricPosition → Prop
  | p, [], q => p = q
  | p, s :: rest, q => s.start = p ∧ LinkedFrom s.endPt rest q

/-- Characterization of jsRound through the floor bounds. -/
theorem jsRound_eq {r : ℝ} {n : ℤ} (h1 : (n : ℝ) ≤ r + 1 / 2)
    (h2 : r + 1 / 2 < n + 1) : jsRound r = n :=
  Int.floor_eq_iff.mpr ⟨h1, h2⟩

/-- Walking toward a target from the target itself emits nothing and
stays put: every per-axis difference is 0, below the 0.1 epsilon. -/
theorem walkLoop_self_eq (p : IsometricPosition) :
    ∀ axes : List RouteAxis, walkLoop p axes p = ([], p) := by
  intro axes
  induction axes with
  | nil => rfl
  | cons a rest ih =>
    simp only [walkLoop]
    rw [if_pos (by rw [sub_self, abs_zero]; norm_num)]
    exact ih

/-- C8: the z-order rank computed by calculateZIndex is
round(K1·(cornerX+cornerY) + K2·z) with cornerX = x + width/2,
cornerY = y + height/2 and constants K1 = 10 > K2 = 1, and in the default
camera scenario the corner rank of the 100×100 box at iso (200,200,0)
strictly exceeds the corner rank of the 100×100 box at iso (0,0,0). -/
theorem calculateZIndex_formula_and_scenario :
    ∃ K1 K2 : ℝ, K1 = 10 ∧ K2 = 1 ∧ K2 < K1 ∧
      (∀ (pos : IsometricPosition) (dep w h : ℝ),
        calculateZIndex pos dep w h =
          jsRound (K1 * ((pos.x + w / 2) + (pos.y + h / 2)) + K2 * pos.z)) ∧
      calculateZIndex ⟨0, 0, 0⟩ 0 100 100 < calculateZIndex ⟨200, 200, 0⟩ 0 100 100 := by
  refine ⟨10, 1, rfl, rfl, by norm_num, fun pos dep w h => ?_, ?_⟩
  · simp only [calculateZIndex]
    congr 1
    ring
  · have h1 : calculateZIndex ⟨0, 0, 0⟩ 0 100 100 = 1000 := by
      simp only [calculateZIndex]
      apply jsRound_eq <;> norm_num
    have h2 : calculateZIndex ⟨200, 200, 0⟩ 0 100 100 = 5000 := by
      simp only [calculateZIndex]
      apply jsRound_eq <;> norm_num
    rw [h1, h2]
    norm_num

/-- C2 (code evidence): at rotateX = 60, rotateZ = 0 the spec's degeneracy
condition sin rotateZ = 0 holds and the denominator sinZ·cosX that
screenToIso divides by is zero, yet screenToIso performs the division
anyway and returns a plain coordinate record — the junk quotient
⟨5, −5, 0⟩ of the real-valued embedding, an Infinity in IEEE arithmetic —
with no error signal anywhere. -/
theorem screenToIso_degenerate_is_silent :
    Real.sin (degToRad 0) = 0 ∧
    screenToIsoDividesByZero ⟨60, 0⟩ 1 ∧
    screenToIso ⟨60, 0⟩ ⟨10, 10⟩ 0 1 ⟨0, 0⟩ = ⟨5, -5, 0⟩ := by
  have h0 : degToRad 0 = 0 := by unfold degToRad; ring
  refine ⟨by rw [h0, Real.sin_zero], Or.inr (Or.inr ?_), ?_⟩
  · simp [getTrigValues, h0]
  · simp [screenToIso, getTrigValues, h0]
    norm_num

/-- C4 (amended): equal endpoints give the empty segment list in every
non-direct routing mode with zero extension, while direct mode instead
yields a single zero-length degenerate segment; neither is an error. -/
theorem updatePath_equal_endpoints (p : IsometricPosition) (route : String)
    (fromFace toFace : FaceType) (perpLen : ℝ) (hroute : route ≠ "direct") :
    updatePath p p route fromFace toFace 0 = [] ∧
    updatePath p p "direct" fromFace toFace perpLen =
      [{ start := p, endPt := p, length := 0, axis := .direct }] := by
  constructor
  · have hext : ∀ (q n : IsometricPosition), extendPoint q n (0 : ℝ) = q := by
      intro q n
      simp [extendPoint]
    simp only [updatePath]
    rw [if_neg hroute]
    simp [hext, walkLoop_self_eq]
  · simp [updatePath, sub_self]

/-- C4 counterexample: with equal endpoints in direct mode the computed
route is a one-element list (one zero-length segment), not the empty
list the claim requires in every mode. -/
theorem updatePath_direct_selfLoop_not_empty :
    updatePath ⟨5, 6, 7⟩ ⟨5, 6, 7⟩ "direct" .top .top 0 ≠ [] := by
  simp [updatePath]

/-- C9 (amended): anchor resolution never raises: an absent or empty face
part of the anchor token falls back to "top", but a non-empty
unrecognized face name is passed through unchanged, and both
getFaceConnectionPoint revisions then leave the offset at zero (yielding
the box position itself), not the top-face connection point. -/
theorem parseAnchor_and_unknown_face (face position : String) (w h d : ℝ)
    (hface : face ∉ ["top", "bottom", "front", "back", "left", "right"]) :
    (parseAnchor "").1 = "top" ∧ (parseAnchor ":mc").1 = "top" ∧
    Part007.localOffset face position w h d = ⟨0, 0, 0⟩ ∧
    EntityTs.localOffset face position w h d = ⟨0, 0, 0⟩ := by
  simp only [List.mem_cons, List.not_mem_nil, or_false, not_or] at hface
  obtain ⟨h1, h2, h3, h4, h5, h6⟩ := hface
  refine ⟨by decide, by decide, ?_, ?_⟩
  · simp [Part007.localOffset, h1, h2, h3, h4, h5, h6]
  · simp [EntityTs.localOffset, h1, h2, h3, h4, h5, h6]

/-- C9 counterexample: the unrecognized face token "center" is not
replaced by "top": the connection point it produces is the box position,
which differs from the top-face point at the same anchor position. -/
theorem unknown_face_differs_from_top :
    (parseAnchor "center:tl").1 = "center" ∧
    Part007.getFaceConnectionPoint ⟨0, 0, 0⟩ 100 100 50 "center" "tl" = ⟨0, 0, 0⟩ ∧
    Part007.getFaceConnectionPoint ⟨0, 0, 0⟩ 100 100 50 "top" "tl" = ⟨-50, -50, 50⟩ ∧
    Part007.getFaceConnectionPoint ⟨0, 0, 0⟩ 100 100 50 "center" "tl" ≠
      Part007.getFaceConnectionPoint ⟨0, 0, 0⟩ 100 100 50 "top" "tl" := by
  have hc : Part007.getFaceConnectionPoint ⟨0, 0, 0⟩ 100 100 50 "center" "tl" = ⟨0, 0, 0⟩ := by
    simp [Part007.getFaceConnectionPoint, Part007.localOffset, positionUV]
  have ht : Part007.getFaceConnectionPoint ⟨0, 0, 0⟩ 100 100 50 "top" "tl" = ⟨-50, -50, 50⟩ := by
    simp [Part007.getFaceConnectionPoint, Part007.localOffset, positionUV]
    norm_num
  refine ⟨by decide, hc, ht, ?_⟩
  rw [hc, ht]
  simp only [ne_eq, IsometricPosition.mk.injEq, not_and]
  intro hx
  norm_num at hx

/-- Witness: parseAnchor_and_unknown_face applied to the unrecognized
face "center" at position "bl" on a 10 × 20 × 30 box. -/
theorem parseAnchor_and_unknown_face_witness :
    ("center" : String) ∉ ["top", "bottom", "front", "back", "left", "right"] ∧
    ((parseAnchor "").1 = "top" ∧ (parseAnchor ":mc").1 = "top" ∧
      Part007.localOffset "center" "bl" 10 20 30 = ⟨0, 0, 0⟩ ∧
      EntityTs.localOffset "center" "bl" 10 20 30 = ⟨0, 0, 0⟩) :=
  ⟨by decide, parseAnchor_and_unknown_face "center" "bl" 10 20 30 (by decide)⟩

/-- C5 (amended): the part_007 revision of getFaceConnectionPoint matches
the spec's face-offset table on all six faces — in particular the left
face gives (−w/2, h·(u−0.5), d·(1−v)) — while the IsoEntity.ts revision
matches the table on every face except left, where it instead produces
the front-face offsets (w·(u−0.5), h/2, d·(1−v)). -/
theorem faceOffsets_vs_spec_table (face position : String) (w h d : ℝ)
    (hface : face ∈ ["top", "bottom", "front", "back", "left", "right"]) :
    Part007.localOffset face position w h d =
      specFaceOffset face (positionUV position).u (positionUV position).v w h d ∧
    (face ≠ "left" →
      EntityTs.localOffset face position w h d =
        specFaceOffset face (positionUV position).u (positionUV position).v w h d) ∧
    (face = "left" →
      EntityTs.localOffset face position w h d =
        specFaceOffset "front" (positionUV position).u (positionUV position).v w h d) := by
  fin_cases hface <;>
    refine ⟨by simp [Part007.localOffset, specFaceOffset], fun hne => ?_, fun heq => ?_⟩ <;>
    simp_all [EntityTs.localOffset, specFaceOffset]

/-- C5 counterexample: for a 100 × 100 × 50 box at the mc anchor the
IsoEntity.ts revision computes the left-face offset (0, 50, 25), while
the spec's table gives (−50, 0, 25). -/
theorem entityTs_left_offset_differs :
    EntityTs.localOffset "left" "mc" 100 100 50 ≠
      specFaceOffset "left" (positionUV "mc").u (positionUV "mc").v 100 100 50 := by
  have hl : EntityTs.localOffset "left" "mc" 100 100 50 = ⟨0, 50, 25⟩ := by
    simp [EntityTs.localOffset, positionUV]
    norm_num
  have hr : specFaceOffset "left" (positionUV "mc").u (positionUV "mc").v 100 100 50 =
      ⟨-50, 0, 25⟩ := by
    simp [specFaceOffset, positionUV]
    norm_num
  rw [hl, hr]
  simp only [ne_eq, IsometricPosition.mk.injEq, not_and]
  intro hx
  norm_num at hx

/-- Witness: faceOffsets_vs_spec_table applied at the left face, anchor
mc, on a 100 × 100 × 50 box. -/
theorem faceOffsets_vs_spec_table_witness :
    ("left" : String) ∈ ["top", "bottom", "front", "back", "left", "right"] ∧
    (Part007.localOffset "left" "mc" 100 100 50 =
        specFaceOffset "left" (positionUV "mc").u (positionUV "mc").v 100 100 50 ∧
      (("left" : String) ≠ "left" →
        EntityTs.localOffset "left" "mc" 100 100 50 =
          specFaceOffset "left" (positionUV "mc").u (positionUV "mc").v 100 100 50) ∧
      (("left" : String) = "left" →
        EntityTs.localOffset "left" "mc" 100 100 50 =
          specFaceOffset "front" (positionUV "mc").u (positionUV "mc").v 100 100 50)) :=
  ⟨by decide, faceOffsets_vs_spec_table "left" "mc" 100 100 50 (by decide)⟩

/-- C7: stepping the forward particle stream with speed s and elapsed dt
advances each particle to progress + s·dt, clamped trivially at 1 for the
survivors, and removes a particle exactly when the advanced progress
exceeds 1 — a particle landing exactly on 1 is retained. -/
theorem stepForwardParticles_spec (ps : List Particle) (s dt : ℝ)
    (hs : 0 < s) (hdt : 0 ≤ dt) :
    stepForwardParticles ps s dt =
      ps.filterMap (fun p =>
        if p.progress + s * dt ≤ 1 then
          some { p with progress := min (p.progress + s * dt) 1 }
        else none) := by
  unfold stepForwardParticles
  induction ps with
  | nil => rfl
  | cons p rest ih =>
    simp only [List.map_cons, List.filter_cons, List.filterMap_cons]
    by_cases h : p.progress + s * dt ≤ 1
    · simp [h, min_eq_left h, ih]
    · simp [h, ih]

/-- Witness: stepForwardParticles_spec at speed 1/2 over 1 second on
three particles with progress 1/2, 9/10 and 1: the first lands exactly on
1 and is retained, the other two exceed 1 and are removed. -/
theorem stepForwardParticles_spec_witness :
    (0 : ℝ) < 1 / 2 ∧ (0 : ℝ) ≤ 1 ∧
    stepForwardParticles [⟨0, 1 / 2, 0⟩, ⟨1, 9 / 10, 0⟩, ⟨2, 1, 0⟩] (1 / 2) 1 =
      [(⟨0, 1 / 2, 0⟩ : Particle), ⟨1, 9 / 10, 0⟩, ⟨2, 1, 0⟩].filterMap (fun p =>
        if p.progress + (1 / 2) * 1 ≤ 1 then
          some { p with progress := min (p.progress + (1 / 2) * 1) 1 }
        else none) :=
  ⟨by norm_num, by norm_num,
    stepForwardParticles_spec [⟨0, 1 / 2, 0⟩, ⟨1, 9 / 10, 0⟩, ⟨2, 1, 0⟩] (1 / 2) 1
      (by norm_num) (by norm_num)⟩

/-- C6 (amended): on an empty segment list the sampler returns the
constant origin (0,0,0) and its scan performs no division at all, but on
a non-empty list whose head segment has length 0 — as the direct-mode
route of two equal endpoints does — with totalLength 0 the scan selects
that segment and its segmentProgress computation divides by zero. -/
theorem getPositionAtProgress_empty_and_zero (seg : LineSegment3D)
    (rest : List LineSegment3D) (totalLength progress pr2 : ℝ)
    (hlen : seg.length = 0) :
    getPositionAtProgress [] totalLength progress = ⟨0, 0, 0⟩ ∧
    ¬ scanDividesByZero [] (progress * totalLength) 0 ∧
    scanDividesByZero (seg :: rest) (pr2 * 0) 0 := by
  refine ⟨rfl, ?_, ?_⟩
  · simp [scanDividesByZero]
  · simp only [scanDividesByZero, mul_zero]
    rw [if_pos (by rw [hlen]; norm_num)]
    exact hlen

/-- Witness: getPositionAtProgress_empty_and_zero applied to the
zero-length direct segment of the degenerate route at (1,2,3). -/
theorem getPositionAtProgress_empty_and_zero_witness :
    ((⟨⟨1, 2, 3⟩, ⟨1, 2, 3⟩, 0, .direct⟩ : LineSegment3D)).length = 0 ∧
    (getPositionAtProgress [] 7 (1 / 2) = ⟨0, 0, 0⟩ ∧
      ¬ scanDividesByZero [] ((1 / 2) * 7) 0 ∧
      scanDividesByZero [⟨⟨1, 2, 3⟩, ⟨1, 2, 3⟩, 0, .direct⟩] ((1 / 2) * 0) 0) :=
  ⟨rfl, getPositionAtProgress_empty_and_zero ⟨⟨1, 2, 3⟩, ⟨1, 2, 3⟩, 0, .direct⟩ []
    7 (1 / 2) (1 / 2) rfl⟩

/-- C6 counterexample: the sampler on the empty route of equal endpoints
(1,2,3) returns the constant (0,0,0), not the route's from point, and on
the degenerate direct route of those endpoints the scan divides by zero
(the JavaScript original computes 0/0 = NaN there). -/
theorem getPositionAtProgress_not_reference_point :
    updatePath ⟨1, 2, 3⟩ ⟨1, 2, 3⟩ "auto" .top .top 0 = [] ∧
    getPositionAtProgress (updatePath ⟨1, 2, 3⟩ ⟨1, 2, 3⟩ "auto" .top .top 0) 0 (1 / 2) =
      ⟨0, 0, 0⟩ ∧
    (⟨0, 0, 0⟩ : IsometricPosition) ≠ ⟨1, 2, 3⟩ ∧
    updatePath ⟨1, 2, 3⟩ ⟨1, 2, 3⟩ "direct" .top .top 0 =
      [{ start := ⟨1, 2, 3⟩, endPt := ⟨1, 2, 3⟩, length := 0, axis := .direct }] ∧
    scanDividesByZero
      [{ start := ⟨1, 2, 3⟩, endPt := ⟨1, 2, 3⟩, length := 0, axis := .direct }]
      ((1 / 2) * 0) 0 := by
  have hext : ∀ (q n : IsometricPosition), extendPoint q n (0 : ℝ) = q := by
    intro q n
    simp [extendPoint]
  have hempty : updatePath ⟨1, 2, 3⟩ ⟨1, 2, 3⟩ "auto" .top .top 0 = [] := by
    simp only [updatePath]
    rw [if_neg (by decide)]
    simp [hext, walkLoop_self_eq]
  refine ⟨hempty, ?_, by simp, ?_, ?_⟩
  · rw [hempty]
    rfl
  · simp [updatePath, sub_self]
  · simp only [scanDividesByZero, mul_zero]
    rw [if_pos (by norm_num)]
    trivial

/-- C1 (amended): the round trip screenToIso ∘ isoToScreen restores a
z = 0 point exactly (hence within the 1e-6 tolerance per coordinate)
whenever sin rotateZ ≠ 0 and cos rotateX ≠ 0, and additionally — beyond
the claim's non-degeneracy condition — cos rotateZ ≠ 0 and scale ≠ 0. -/
theorem roundTrip_within_tolerance (a : AngleConfig) (p : IsometricPosition)
    (scale : ℝ) (origin : ScreenPosition) (hz : p.z = 0)
    (hsinZ : Real.sin (degToRad a.rotateZ) ≠ 0)
    (hcosX : Real.cos (degToRad a.rotateX) ≠ 0)
    (hcosZ : Real.cos (degToRad a.rotateZ) ≠ 0)
    (hscale : scale ≠ 0) :
    |(screenToIso a (isoToScreen a p scale origin) 0 scale origin).x - p.x| < 1e-6 ∧
    |(screenToIso a (isoToScreen a p scale origin) 0 scale origin).y - p.y| < 1e-6 ∧
    |(screenToIso a (isoToScreen a p scale origin) 0 scale origin).z - p.z| < 1e-6 := by
  have hm : Real.sin (degToRad a.rotateZ) * Real.cos (degToRad a.rotateX) ≠ 0 :=
    mul_ne_zero hsinZ hcosX
  have key : screenToIso a (isoToScreen a p scale origin) 0 scale origin =
      ⟨p.x, p.y, 0⟩ := by
    simp only [screenToIso, isoToScreen, getTrigValues, hz]
    ext
    · field_simp
      ring
    · field_simp
      ring
    · rfl
  rw [key, hz]
  norm_num

/-- C1 counterexample: at rotateX = 60, rotateZ = 90 the claim's
non-degeneracy condition holds (sin rotateZ = 1 ≠ 0, cos rotateX = 1/2
≠ 0), yet cos rotateZ = 0 and the round trip of (1,0,0) at scale 1 gives
x = 1/2 in the real-valued embedding (NaN in IEEE arithmetic), missing
the 1e-6 tolerance. -/
theorem roundTrip_fails_at_rotateZ_90 :
    Real.sin (degToRad 90) ≠ 0 ∧
    Real.cos (degToRad 60) ≠ 0 ∧
    ((⟨1, 0, 0⟩ : IsometricPosition).z = 0) ∧
    ¬(|(screenToIso ⟨60, 90⟩ (isoToScreen ⟨60, 90⟩ ⟨1, 0, 0⟩ 1 ⟨0, 0⟩) 0 1 ⟨0, 0⟩).x -
        (⟨1, 0, 0⟩ : IsometricPosition).x| < 1e-6) := by
  have h90 : degToRad 90 = Real.pi / 2 := by unfold degToRad; ring
  have h60 : degToRad 60 = Real.pi / 3 := by unfold degToRad; ring
  refine ⟨?_, ?_, rfl, ?_⟩
  · rw [h90, Real.sin_pi_div_two]
    norm_num
  · rw [h60, Real.cos_pi_div_three]
    norm_num
  · have hx : (screenToIso ⟨60, 90⟩ (isoToScreen ⟨60, 90⟩ ⟨1, 0, 0⟩ 1 ⟨0, 0⟩) 0 1 ⟨0, 0⟩).x =
        1 / 2 := by
      simp [screenToIso, isoToScreen, getTrigValues, h90, h60, Real.cos_pi_div_two,
        Real.sin_pi_div_two, Real.cos_pi_div_three]
    rw [hx]
    have habs : |(1 : ℝ) / 2 - (⟨1, 0, 0⟩ : IsometricPosition).x| = 1 / 2 := by
      show |(1 : ℝ) / 2 - 1| = 1 / 2
      rw [abs_of_nonpos (by norm_num)]
      norm_num
    rw [habs]
    norm_num

/-- Witness: roundTrip_within_tolerance at the default camera angles
rotateX = 60, rotateZ = 45, point (3,7,0), scale 2, origin (5,9). -/
theorem roundTrip_within_tolerance_witness :
    ((⟨3, 7, 0⟩ : IsometricPosition).z = 0) ∧
    Real.sin (degToRad 45) ≠ 0 ∧
    Real.cos (degToRad 60) ≠ 0 ∧
    Real.cos (degToRad 45) ≠ 0 ∧
    ((2 : ℝ) ≠ 0) ∧
    (|(screenToIso ⟨60, 45⟩ (isoToScreen ⟨60, 45⟩ ⟨3, 7, 0⟩ 2 ⟨5, 9⟩) 0 2 ⟨5, 9⟩).x -
        (⟨3, 7, 0⟩ : IsometricPosition).x| < 1e-6 ∧
      |(screenToIso ⟨60, 45⟩ (isoToScreen ⟨60, 45⟩ ⟨3, 7, 0⟩ 2 ⟨5, 9⟩) 0 2 ⟨5, 9⟩).y -
        (⟨3, 7, 0⟩ : IsometricPosition).y| < 1e-6 ∧
      |(screenToIso ⟨60, 45⟩ (isoToScreen ⟨60, 45⟩ ⟨3, 7, 0⟩ 2 ⟨5, 9⟩) 0 2 ⟨5, 9⟩).z -
        (⟨3, 7, 0⟩ : IsometricPosition).z| < 1e-6) := by
  have h45 : degToRad 45 = Real.pi / 4 := by unfold degToRad; ring
  have h60 : degToRad 60 = Real.pi / 3 := by unfold degToRad; ring
  have hs : Real.sin (degToRad 45) ≠ 0 := by
    rw [h45, Real.sin_pi_div_four]
    positivity
  have hc : Real.cos (degToRad 45) ≠ 0 := by
    rw [h45, Real.cos_pi_div_four]
    positivity
  have hx : Real.cos (degToRad 60) ≠ 0 := by
    rw [h60, Real.cos_pi_div_three]
    norm_num
  exact ⟨rfl, hs, hx, hc, by norm_num,
    roundTrip_within_tolerance ⟨60, 45⟩ ⟨3, 7, 0⟩ 2 ⟨5, 9⟩ rfl hs hx hc (by norm_num)⟩

/-- Reading back the coordinate just written by setCoord. -/
theorem getCoord_setCoord_same (p : IsometricPosition) (a : RouteAxis) (r : ℝ) :
    getCoord (setCoord p a r) a = r := by
  cases a <;> rfl

/-- setCoord leaves the other coordinates unchanged. -/
theorem getCoord_setCoord_other (p : IsometricPosition) (a b : RouteAxis) (r : ℝ)
    (hab : b ≠ a) : getCoord (setCoord p a r) b = getCoord p b := by
  cases a <;> cases b <;> first | rfl | exact absurd rfl hab

/-- Two points agreeing on all three axis coordinates are equal. -/
theorem eq_of_getCoord_eq {p q : IsometricPosition}
    (h : ∀ a : RouteAxis, getCoord p a = getCoord q a) : p = q := by
  ext
  · exact h .x
  · exact h .y
  · exact h .z

/-- walkLoop equation: the empty axis list emits nothing. -/
theorem walkLoop_nil (tE cur : IsometricPosition) :
    walkLoop tE [] cur = ([], cur) := rfl

/-- walkLoop equation: an axis whose difference is below the epsilon is
skipped. -/
theorem walkLoop_cons_skip (tE : IsometricPosition) (a : RouteAxis)
    (rest : List RouteAxis) (cur : IsometricPosition)
    (h : |getCoord tE a - getCoord cur a| < 0.1) :
    walkLoop tE (a :: rest) cur = walkLoop tE rest cur := by
  simp only [walkLoop]
  rw [if_pos h]

/-- walkLoop equation: an axis whose difference reaches the epsilon emits
one segment moving that coordinate to its target. -/
theorem walkLoop_cons_move (tE : IsometricPosition) (a : RouteAxis)
    (rest : List RouteAxis) (cur : IsometricPosition)
    (h : ¬ |getCoord tE a - getCoord cur a| < 0.1) :
    walkLoop tE (a :: rest) cur =
      ({ start := cur, endPt := setCoord cur a (getCoord tE a),
          length := |getCoord tE a - getCoord cur a|, axis := .axis a } ::
          (walkLoop tE rest (setCoord cur a (getCoord tE a))).1,
        (walkLoop tE rest (setCoord cur a (getCoord tE a))).2) := by
  simp only [walkLoop]
  rw [if_neg h]

/-- The segments emitted by walkLoop form an unbroken polyline from the
starting position to the final position. -/
theorem walkLoop_linked (tE : IsometricPosition) :
    ∀ (axes : List RouteAxis) (cur : IsometricPosition),
      LinkedFrom cur (walkLoop tE axes cur).1 (walkLoop tE axes cur).2 := by
  intro axes
  induction axes with
  | nil =>
    intro cur
    exact rfl
  | cons a rest ih =>
    intro cur
    by_cases h : |getCoord tE a - getCoord cur a| < 0.1
    · rw [walkLoop_cons_skip tE a rest cur h]
      exact ih cur
    · rw [walkLoop_cons_move tE a rest cur h]
      exact ⟨rfl, ih _⟩

/-- An unbroken polyline satisfies the adjacent-segment link relation. -/
theorem linkedFrom_chain :
    ∀ (segs : List LineSegment3D) (p q : IsometricPosition),
      LinkedFrom p segs q → List.Chain' SegLink segs := by
  intro segs
  induction segs with
  | nil =>
    intro p q _
    exact List.chain'_nil
  | cons s rest ih =>
    intro p q h
    obtain ⟨hs, hrest⟩ := h
    cases rest with
    | nil => exact List.chain'_singleton s
    | cons t rest2 =>
      exact List.Chain'.cons hrest.1.symm (ih _ _ hrest)

/-- The last segment of an unbroken polyline ends at the final position. -/
theorem linkedFrom_getLast :
    ∀ (segs : List LineSegment3D) (p q : IsometricPosition) (s : LineSegment3D),
      LinkedFrom p segs q → segs.getLast? = some s → s.endPt = q := by
  intro segs
  induction segs with
  | nil =>
    intro p q s _ hl
    simp at hl
  | cons t rest ih =>
    intro p q s h hl
    obtain ⟨_, hrest⟩ := h
    cases rest with
    | nil =>
      simp only [List.getLast?_singleton, Option.some_inj] at hl
      subst hl
      exact hrest
    | cons u rest2 =>
      rw [List.getLast?_cons_cons] at hl
      exact ih _ _ _ hrest hl

/-- Wrapping an unbroken polyline between an entry segment ending at its
start and an exit segment starting at its end gives a linked chain. -/
theorem chain'_wrap (e1 e2 : LineSegment3D) (mid : List LineSegment3D)
    (p q : IsometricPosition) (hlink : LinkedFrom p mid q)
    (he1 : e1.endPt = p) (he2 : e2.start = q) :
    List.Chain' SegLink ([e1] ++ mid ++ [e2]) := by
  refine List.chain'_append.mpr ⟨?_, List.chain'_singleton e2, ?_⟩
  · refine List.chain'_append.mpr
      ⟨List.chain'_singleton e1, linkedFrom_chain mid p q hlink, ?_⟩
    intro x hx y hy
    have hx2 : e1 = x := by simpa using hx
    cases mid with
    | nil => simp at hy
    | cons m rest =>
      have hy2 : m = y := by simpa using hy
      show x.endPt = y.start
      rw [← hx2, ← hy2, he1, hlink.1]
  · intro x hx y hy
    have hy2 : e2 = y := by simpa using hy
    cases mid with
    | nil =>
      have hpq : p = q := hlink
      have hx2 : e1 = x := by simpa using hx
      show x.endPt = y.start
      rw [← hx2, ← hy2, he1, he2, hpq]
    | cons m rest =>
      rw [List.getLast?_append_of_ne_nil _ (List.cons_ne_nil m rest)] at hx
      have hxq := linkedFrom_getLast (m :: rest) p q x hlink hx
      show x.endPt = y.start
      rw [← hy2, hxq, he2]

/-- A coordinate already at its target survives the rest of the walk. -/
theorem walkLoop_preserves (tE : IsometricPosition) :
    ∀ (axes : List RouteAxis) (cur : IsometricPosition) (a : RouteAxis),
      getCoord cur a = getCoord tE a →
      getCoord (walkLoop tE axes cur).2 a = getCoord tE a := by
  intro axes
  induction axes with
  | nil =>
    intro cur a h
    exact h
  | cons b rest ih =>
    intro cur a h
    by_cases hb : |getCoord tE b - getCoord cur b| < 0.1
    · rw [walkLoop_cons_skip tE b rest cur hb]
      exact ih cur a h
    · rw [walkLoop_cons_move tE b rest cur hb]
      apply ih
      by_cases hab : a = b
      · subst hab
        rw [getCoord_setCoord_same]
      · rw [getCoord_setCoord_other cur b a _ hab]
        exact h

/-- When every axis difference of the walk is either exactly zero or at
least the 0.1 epsilon, every axis visited by the walk ends at its target
coordinate. -/
theorem walkLoop_final (tE : IsometricPosition) :
    ∀ (axes : List RouteAxis) (cur : IsometricPosition),
      (∀ b : RouteAxis, getCoord tE b - getCoord cur b = 0 ∨
        (0.1 : ℝ) ≤ |getCoord tE b - getCoord cur b|) →
      ∀ a ∈ axes, getCoord (walkLoop tE axes cur).2 a = getCoord tE a := by
  intro axes
  induction axes with
  | nil =>
    intro cur _ a ha
    exact absurd ha (List.not_mem_nil a)
  | cons b rest ih =>
    intro cur hP a ha
    by_cases hb : |getCoord tE b - getCoord cur b| < 0.1
    · have hzero : getCoord tE b - getCoord cur b = 0 := by
        rcases hP b with h0 | h1
        · exact h0
        · linarith
      rw [walkLoop_cons_skip tE b rest cur hb]
      rcases List.mem_cons.mp ha with rfl | hmem
      · exact walkLoop_preserves tE rest cur a (sub_eq_zero.mp hzero).symm
      · exact ih cur hP a hmem
    · rw [walkLoop_cons_move tE b rest cur hb]
      have hP2 : ∀ c : RouteAxis,
          getCoord tE c - getCoord (setCoord cur b (getCoord tE b)) c = 0 ∨
          (0.1 : ℝ) ≤ |getCoord tE c - getCoord (setCoord cur b (getCoord tE b)) c| := by
        intro c
        by_cases hcb : c = b
        · subst hcb
          left
          rw [getCoord_setCoord_same]
          ring
        · rw [getCoord_setCoord_other cur b c _ hcb]
          exact hP c
      rcases List.mem_cons.mp ha with rfl | hmem
      · exact walkLoop_preserves tE rest _ a (by rw [getCoord_setCoord_same])
      · exact ih _ hP2 a hmem

/-- Every axis appears in the completed route order (the user axes
followed by the remaining axes of the default order). -/
theorem mem_routeOrder (user : List RouteAxis) (a : RouteAxis) :
    a ∈ user ++ allAxes.filter (fun b : RouteAxis => !(user.contains b)) := by
  by_cases h : a ∈ user
  · exact List.mem_append_left _ h
  · refine List.mem_append_right _ ?_
    rw [List.mem_filter]
    refine ⟨by cases a <;> simp [allAxes], ?_⟩
    simp only [Bool.not_eq_true', ← List.elem_iff (a := a)] at h ⊢
    simp [List.contains, Bool.not_eq_true] at h ⊢
    exact h

/-- Index-form continuity follows from the adjacent-link chain. -/
theorem segmentsContinuous_of_chain {segs : List LineSegment3D}
    (h : List.Chain' SegLink segs) : SegmentsContinuous segs := by
  intro i hi
  exact List.chain'_iff_get.mp h i (by omega)

/-- The first two segments of a continuous list share an endpoint. -/
theorem segmentsContinuous_cons_head {s1 s2 : LineSegment3D}
    {rest : List LineSegment3D} (h : SegmentsContinuous (s1 :: s2 :: rest)) :
    s1.endPt = s2.start := by
  have h0 := h 0 (by simp)
  simpa using h0

/-- Continuity restricts to the tail of the segment list. -/
theorem segmentsContinuous_tail {s : LineSegment3D} {rest : List LineSegment3D}
    (h : SegmentsContinuous (s :: rest)) : SegmentsContinuous rest := by
  intro i hi
  have hstep := h (i + 1) (by simp only [List.length_cons]; omega)
  simpa using hstep

/-- C3 (amended): a computed route satisfies exact continuity
(segment i ends where segment i+1 starts) in direct mode, whenever the
perpendicular extension is inactive, and whenever each per-axis
difference between the two extended endpoints is either exactly 0 or at
least the 0.1 walk epsilon; a residual difference inside (0, 0.1)
together with a positive extension breaks exact continuity at the
terminal extension junction. -/
theorem updatePath_continuity (fromIso toIso : IsometricPosition)
    (route : String) (fromFace toFace : FaceType) (perpLen : ℝ)
    (hext : 0 < perpLen →
      ∀ a : RouteAxis,
        getCoord (extendPoint toIso (FACE_NORMALS toFace) perpLen) a -
            getCoord (extendPoint fromIso (FACE_NORMALS fromFace) perpLen) a = 0 ∨
          (0.1 : ℝ) ≤
            |getCoord (extendPoint toIso (FACE_NORMALS toFace) perpLen) a -
              getCoord (extendPoint fromIso (FACE_NORMALS fromFace) perpLen) a|) :
    SegmentsContinuous (updatePath fromIso toIso route fromFace toFace perpLen) := by
  apply segmentsContinuous_of_chain
  by_cases hd : route = "direct"
  · simp only [updatePath]
    rw [if_pos hd]
    exact List.chain'_singleton _
  · simp only [updatePath]
    rw [if_neg hd]
    by_cases hp : 0 < perpLen
    · rw [if_pos hp, if_pos hp]
      have hfin : (walkLoop (extendPoint toIso (FACE_NORMALS toFace) perpLen)
          (parseRoute route ++ allAxes.filter
            (fun a : RouteAxis => !((parseRoute route).contains a)))
          (extendPoint fromIso (FACE_NORMALS fromFace) perpLen)).2 =
          extendPoint toIso (FACE_NORMALS toFace) perpLen := by
        apply eq_of_getCoord_eq
        intro a
        exact walkLoop_final _ _ _ (hext hp) a (mem_routeOrder _ a)
      have hlink := walkLoop_linked (extendPoint toIso (FACE_NORMALS toFace) perpLen)
        (parseRoute route ++ allAxes.filter
          (fun a : RouteAxis => !((parseRoute route).contains a)))
        (extendPoint fromIso (FACE_NORMALS fromFace) perpLen)
      rw [hfin] at hlink
      exact chain'_wrap _ _ _ (extendPoint fromIso (FACE_NORMALS fromFace) perpLen)
        (extendPoint toIso (FACE_NORMALS toFace) perpLen) hlink rfl rfl
    · rw [if_neg hp, if_neg hp]
      simp only [List.nil_append, List.append_nil]
      exact linkedFrom_chain _ _ _ (walkLoop_linked _ _ _)

/-- C3 counterexample: routing from (0,0,0) to (100,0,0.05) between two
top faces with extension 1 walks x fully but skips the residual z
difference 0.05 < 0.1, so the walk ends at (100,0,1) while the terminal
extension segment starts at (100,0,1.05): adjacent segments 1 and 2 of
the computed route do not share an endpoint. -/
theorem updatePath_extension_discontinuity :
    ¬ SegmentsContinuous (updatePath ⟨0, 0, 0⟩ ⟨100, 0, 0.05⟩ "auto" .top .top 1) := by
  have hfe : extendPoint ⟨0, 0, 0⟩ (FACE_NORMALS FaceType.top) 1 = ⟨0, 0, 1⟩ := by
    norm_num [extendPoint, FACE_NORMALS]
  have hte : extendPoint ⟨100, 0, 0.05⟩ (FACE_NORMALS FaceType.top) 1 = ⟨100, 0, 1.05⟩ := by
    norm_num [extendPoint, FACE_NORMALS]
  have hax : getFaceAxis FaceType.top = RouteAxis.z := by
    norm_num [getFaceAxis, FACE_NORMALS]
  have hwalk : walkLoop ⟨100, 0, 1.05⟩ [RouteAxis.x, RouteAxis.z, RouteAxis.y] ⟨0, 0, 1⟩ =
      ([{ start := ⟨0, 0, 1⟩, endPt := ⟨100, 0, 1⟩, length := |(100 : ℝ) - 0|,
          axis := .axis .x }], ⟨100, 0, 1⟩) := by
    rw [walkLoop_cons_move _ _ _ _
      (by simp only [getCoord]; rw [abs_sub_lt_iff]; norm_num)]
    simp only [getCoord, setCoord]
    rw [walkLoop_cons_skip _ _ _ _
      (by simp only [getCoord]; rw [abs_sub_lt_iff]; constructor <;> norm_num)]
    rw [walkLoop_cons_skip _ _ _ _
      (by simp only [getCoord]; rw [abs_sub_lt_iff]; constructor <;> norm_num)]
    rw [walkLoop_nil]
  have hroute : updatePath ⟨0, 0, 0⟩ ⟨100, 0, 0.05⟩ "auto" .top .top 1 =
      [{ start := ⟨0, 0, 0⟩, endPt := ⟨0, 0, 1⟩, length := 1, axis := .axis .z },
        { start := ⟨0, 0, 1⟩, endPt := ⟨100, 0, 1⟩, length := |(100 : ℝ) - 0|,
          axis := .axis .x },
        { start := ⟨100, 0, 1.05⟩, endPt := ⟨100, 0, 0.05⟩, length := 1,
          axis := .axis .z }] := by
    simp only [updatePath]
    rw [if_neg (by decide)]
    rw [show parseRoute "auto" = [RouteAxis.x, RouteAxis.z, RouteAxis.y] from by decide]
    rw [show ([RouteAxis.x, RouteAxis.z, RouteAxis.y] ++ allAxes.filter
      (fun a : RouteAxis => !(([RouteAxis.x, RouteAxis.z, RouteAxis.y]).contains a))) =
      [RouteAxis.x, RouteAxis.z, RouteAxis.y] from by decide]
    rw [hfe, hte, hax, hwalk]
    rw [if_pos (by norm_num : (0 : ℝ) < 1), if_pos (by norm_num : (0 : ℝ) < 1)]
    rfl
  intro hcont
  simp only [hroute] at hcont
  have hbreak := segmentsContinuous_cons_head (segmentsContinuous_tail hcont)
  have hz := congrArg IsometricPosition.z hbreak
  norm_num at hz

/-- Witness: updatePath_continuity on the route from (0,0,0) to
(100,200,0) between two top faces with extension 1, whose extended
per-axis differences are 100, 200 and 0. -/
theorem updatePath_continuity_witness :
    ((0 : ℝ) < 1 →
      ∀ a : RouteAxis,
        getCoord (extendPoint ⟨100, 200, 0⟩ (FACE_NORMALS FaceType.top) 1) a -
            getCoord (extendPoint ⟨0, 0, 0⟩ (FACE_NORMALS FaceType.top) 1) a = 0 ∨
          (0.1 : ℝ) ≤
            |getCoord (extendPoint ⟨100, 200, 0⟩ (FACE_NORMALS FaceType.top) 1) a -
              getCoord (extendPoint ⟨0, 0, 0⟩ (FACE_NORMALS FaceType.top) 1) a|) ∧
    SegmentsContinuous (updatePath ⟨0, 0, 0⟩ ⟨100, 200, 0⟩ "auto" .top .top 1) := by
  have hhyp : (0 : ℝ) < 1 →
      ∀ a : RouteAxis,
        getCoord (extendPoint ⟨100, 200, 0⟩ (FACE_NORMALS FaceType.top) 1) a -
            getCoord (extendPoint ⟨0, 0, 0⟩ (FACE_NORMALS FaceType.top) 1) a = 0 ∨
          (0.1 : ℝ) ≤
            |getCoord (extendPoint ⟨100, 200, 0⟩ (FACE_NORMALS FaceType.top) 1) a -
              getCoord (extendPoint ⟨0, 0, 0⟩ (FACE_NORMALS FaceType.top) 1) a| := by
    intro _ a
    cases a
    · right
      norm_num [extendPoint, FACE_NORMALS, getCoord]
    · right
      norm_num [extendPoint, FACE_NORMALS, getCoord]
    · left
      norm_num [extendPoint, FACE_NORMALS, getCoord]
  exact ⟨hhyp, updatePath_continuity ⟨0, 0, 0⟩ ⟨100, 200, 0⟩ "auto" .top .top 1 hhyp⟩

/-- scanSegments equation: the empty list scans to none. -/
theorem scanSegments_nil (target acc : ℝ) : scanSegments [] target acc = none := rfl

/-- scanSegments equation: a segment reaching the target interpolates. -/
theorem scanSegments_cons_hit (seg : LineSegment3D) (rest : List LineSegment3D)
    (target acc : ℝ) (h : acc + seg.length ≥ target) :
    scanSegments (seg :: rest) target acc =
      some ⟨seg.start.x + (seg.endPt.x - seg.start.x) * ((target - acc) / seg.length),
        seg.start.y + (seg.endPt.y - seg.start.y) * ((target - acc) / seg.length),
        seg.start.z + (seg.endPt.z - seg.start.z) * ((target - acc) / seg.length)⟩ := by
  simp only [scanSegments]
  rw [if_pos h]

/-- scanSegments equation: a segment short of the target accumulates. -/
theorem scanSegments_cons_miss (seg : LineSegment3D) (rest : List LineSegment3D)
    (target acc : ℝ) (h : ¬ acc + seg.length ≥ target) :
    scanSegments (seg :: rest) target acc = scanSegments rest target (acc + seg.length) := by
  simp only [scanSegments]
  rw [if_neg h]

/-- The scan runs off the end when the target arclength strictly exceeds
the accumulated total of nonnegative segment lengths. -/
theorem scanSegments_none_of_lt (target : ℝ) :
    ∀ (segs : List LineSegment3D) (acc : ℝ),
      (∀ s ∈ segs, 0 ≤ s.length) →
      acc + (segs.map LineSegment3D.length).sum < target →
      scanSegments segs target acc = none := by
  intro segs
  induction segs with
  | nil =>
    intro acc _ _
    rfl
  | cons s rest ih =>
    intro acc hnn hlt
    have hrest_nonneg : 0 ≤ (rest.map LineSegment3D.length).sum := by
      apply List.sum_nonneg
      intro x hx
      obtain ⟨t, ht, rfl⟩ := List.mem_map.mp hx
      exact hnn t (List.mem_cons_of_mem s ht)
    have hsum : acc + (s.length + (rest.map LineSegment3D.length).sum) < target := by
      simpa using hlt
    rw [scanSegments_cons_miss _ _ _ _ (by push_neg; linarith)]
    exact ih (acc + s.length) (fun t ht => hnn t (List.mem_cons_of_mem s ht))
      (by linarith)

/-- When the target arclength equals the accumulated total and every
segment length is positive, the scan lands on the final segment with
segmentProgress 1 and returns its end point. -/
theorem scanSegments_at_total (target : ℝ) :
    ∀ (segs : List LineSegment3D) (acc : ℝ) (hne : segs ≠ []),
      (∀ s ∈ segs, 0 < s.length) →
      target = acc + (segs.map LineSegment3D.length).sum →
      scanSegments segs target acc = some ((segs.getLast hne).endPt) := by
  intro segs
  induction segs with
  | nil =>
    intro acc hne _ _
    exact absurd rfl hne
  | cons s rest ih =>
    intro acc hne hpos heq
    cases rest with
    | nil =>
      have hlen : 0 < s.length := hpos s (List.mem_cons_self s [])
      have htarget : target = acc + s.length := by simpa using heq
      rw [scanSegments_cons_hit _ _ _ _ (by rw [htarget])]
      have hsp : (target - acc) / s.length = 1 := by
        rw [htarget]
        field_simp
      rw [hsp]
      simp only [List.getLast_singleton, Option.some_inj]
      ext <;> ring
    | cons t rest2 =>
      have hpos_rest : ∀ u ∈ t :: rest2, 0 < u.length := fun u hu =>
        hpos u (List.mem_cons_of_mem s hu)
      have hsum_pos : 0 < ((t :: rest2).map LineSegment3D.length).sum := by
        apply List.sum_pos
        · intro x hx
          obtain ⟨u, hu, rfl⟩ := List.mem_map.mp hx
          exact hpos_rest u hu
        · simp
      have heq2 : target = (acc + s.length) +
          ((t :: rest2).map LineSegment3D.length).sum := by
        simp only [List.map_cons, List.sum_cons] at heq ⊢
        linarith [heq]
      rw [scanSegments_cons_miss _ _ _ _ (by push_neg; linarith)]
      rw [ih (acc + s.length) (List.cons_ne_nil t rest2) hpos_rest heq2]
      rw [List.getLast_cons (List.cons_ne_nil t rest2)]

/-- The total path length is the sum of the segment lengths. -/
theorem totalPathLength_eq_sum (segs : List LineSegment3D) :
    totalPathLength segs = (segs.map LineSegment3D.length).sum := by
  have haux : ∀ (l : List LineSegment3D) (init : ℝ),
      l.foldl (fun sum seg => sum + seg.length) init =
        init + (l.map LineSegment3D.length).sum := by
    intro l
    induction l with
    | nil =>
      intro init
      simp
    | cons s rest ih =>
      intro init
      simp only [List.foldl_cons, List.map_cons, List.sum_cons, ih]
      ring
  unfold totalPathLength
  rw [haux]
  ring

/-- Every segment the axis walk emits has positive length (at least the
0.1 epsilon). -/
theorem walkLoop_length_pos (tE : IsometricPosition) :
    ∀ (axes : List RouteAxis) (cur : IsometricPosition) (s : LineSegment3D),
      s ∈ (walkLoop tE axes cur).1 → 0 < s.length := by
  intro axes
  induction axes with
  | nil =>
    intro cur s hs
    rw [walkLoop_nil] at hs
    exact absurd hs (List.not_mem_nil s)
  | cons a rest ih =>
    intro cur s hs
    by_cases h : |getCoord tE a - getCoord cur a| < 0.1
    · rw [walkLoop_cons_skip tE a rest cur h] at hs
      exact ih cur s hs
    · rw [walkLoop_cons_move tE a rest cur h] at hs
      rcases List.mem_cons.mp hs with rfl | hmem
      · push_neg at h
        show (0 : ℝ) < |getCoord tE a - getCoord cur a|
        linarith
      · exact ih _ s hmem

/-- Every segment of a computed route of positive total length has
positive length: walk segments are at least the epsilon, extension
segments have the positive extension length, and the direct segment
carries the whole total. -/
theorem updatePath_pos_lengths (fromIso toIso : IsometricPosition)
    (route : String) (fromFace toFace : FaceType) (perpLen : ℝ)
    (hpos : 0 < totalPathLength (updatePath fromIso toIso route fromFace toFace perpLen)) :
    ∀ s ∈ updatePath fromIso toIso route fromFace toFace perpLen, 0 < s.length := by
  intro s hs
  by_cases hd : route = "direct"
  · simp only [updatePath] at hs hpos
    rw [if_pos hd] at hs hpos
    rw [totalPathLength_eq_sum] at hpos
    simp only [List.map_cons, List.map_nil, List.sum_cons, List.sum_nil, add_zero] at hpos
    rcases List.mem_singleton.mp hs with rfl
    exact hpos
  · simp only [updatePath] at hs
    rw [if_neg hd] at hs
    by_cases hp : 0 < perpLen
    · rw [if_pos hp, if_pos hp] at hs
      rcases List.mem_append.mp hs with h1 | h2
      · rcases List.mem_append.mp h1 with h3 | h4
        · rcases List.mem_singleton.mp h3 with rfl
          exact hp
        · exact walkLoop_length_pos _ _ _ s h4
      · rcases List.mem_singleton.mp h2 with rfl
        exact hp
    · rw [if_neg hp, if_neg hp] at hs
      simp only [List.nil_append, List.append_nil] at hs
      exact walkLoop_length_pos _ _ _ s hs

/-- C10: for every route produced by the route computation with positive
total length, and every progress whose target arclength
progress·totalLength reaches or exceeds totalLength, the sampler returns
exactly the end point of the last segment — it clamps at the path end and
never extrapolates. -/
theorem getPositionAtProgress_clamps_at_end
    (fromIso toIso : IsometricPosition) (route : String)
    (fromFace toFace : FaceType) (perpLen progress total : ℝ)
    (segs : List LineSegment3D)
    (hsegs : segs = updatePath fromIso toIso route fromFace toFace perpLen)
    (htotal : total = totalPathLength segs)
    (hne : segs ≠ [])
    (hpos : 0 < total)
    (hprog : total ≤ progress * total) :
    getPositionAtProgress segs total progress = (segs.getLast hne).endPt := by
  have hlens : ∀ s ∈ segs, 0 < s.length := by
    rw [hsegs]
    refine updatePath_pos_lengths _ _ _ _ _ _ ?_
    rw [← hsegs, ← htotal]
    exact hpos
  have hsum : total = (segs.map LineSegment3D.length).sum := by
    rw [htotal, totalPathLength_eq_sum]
  obtain ⟨s, rest, rfl⟩ := List.exists_cons_of_ne_nil hne
  rcases eq_or_lt_of_le hprog with heq | hlt
  · simp only [getPositionAtProgress]
    rw [scanSegments_at_total (progress * total) (s :: rest) 0
      (List.cons_ne_nil s rest) hlens (by rw [← heq, hsum, zero_add])]
  · simp only [getPositionAtProgress]
    rw [scanSegments_none_of_lt (progress * total) (s :: rest) 0
      (fun u hu => le_of_lt (hlens u hu)) (by rw [zero_add, ← hsum]; exact hlt)]

/-- Witness: getPositionAtProgress_clamps_at_end on the spec's route
scenario, the single-segment route (0,0,50)→(100,0,50) of length 100,
sampled at progress 1. -/
theorem getPositionAtProgress_clamps_at_end_witness :
    ([⟨⟨0, 0, 50⟩, ⟨100, 0, 50⟩, |(100 : ℝ) - 0|, .axis .x⟩] : List LineSegment3D) =
        updatePath ⟨0, 0, 50⟩ ⟨100, 0, 50⟩ "x" .right .left 0 ∧
    (100 : ℝ) = totalPathLength
        [⟨⟨0, 0, 50⟩, ⟨100, 0, 50⟩, |(100 : ℝ) - 0|, .axis .x⟩] ∧
    ([⟨⟨0, 0, 50⟩, ⟨100, 0, 50⟩, |(100 : ℝ) - 0|, .axis .x⟩] : List LineSegment3D) ≠ [] ∧
    (0 : ℝ) < 100 ∧
    (100 : ℝ) ≤ 1 * 100 ∧
    getPositionAtProgress
        [⟨⟨0, 0, 50⟩, ⟨100, 0, 50⟩, |(100 : ℝ) - 0|, .axis .x⟩] 100 1 =
      (([⟨⟨0, 0, 50⟩, ⟨100, 0, 50⟩, |(100 : ℝ) - 0|, .axis .x⟩] :
          List LineSegment3D).getLast (by simp)).endPt := by
  have hwalkw : walkLoop ⟨100, 0, 50⟩ [RouteAxis.x, RouteAxis.z, RouteAxis.y] ⟨0, 0, 50⟩ =
      ([⟨⟨0, 0, 50⟩, ⟨100, 0, 50⟩, |(100 : ℝ) - 0|, .axis .x⟩], ⟨100, 0, 50⟩) := by
    rw [walkLoop_cons_move _ _ _ _
      (by simp only [getCoord]; rw [abs_sub_lt_iff]; norm_num)]
    simp only [getCoord, setCoord]
    rw [walkLoop_cons_skip _ _ _ _
      (by simp only [getCoord]; rw [abs_sub_lt_iff]; constructor <;> norm_num)]
    rw [walkLoop_cons_skip _ _ _ _
      (by simp only [getCoord]; rw [abs_sub_lt_iff]; constructor <;> norm_num)]
    rw [walkLoop_nil]
  have hroute2 : updatePath ⟨0, 0, 50⟩ ⟨100, 0, 50⟩ "x" .right .left 0 =
      [⟨⟨0, 0, 50⟩, ⟨100, 0, 50⟩, |(100 : ℝ) - 0|, .axis .x⟩] := by
    simp only [updatePath]
    rw [if_neg (by decide)]
    rw [show extendPoint ⟨0, 0, 50⟩ (FACE_NORMALS FaceType.right) 0 = ⟨0, 0, 50⟩ from
      by simp [extendPoint]]
    rw [show extendPoint ⟨100, 0, 50⟩ (FACE_NORMALS FaceType.left) 0 = ⟨100, 0, 50⟩ from
      by simp [extendPoint]]
    rw [show (parseRoute "x" ++ allAxes.filter
        (fun a : RouteAxis => !((parseRoute "x").contains a))) =
      [RouteAxis.x, RouteAxis.z, RouteAxis.y] from by decide]
    rw [hwalkw]
    rw [if_neg (by norm_num : ¬(0 : ℝ) < 0), if_neg (by norm_num : ¬(0 : ℝ) < 0)]
    simp
  have htotal2 : totalPathLength
      [⟨⟨0, 0, 50⟩, ⟨100, 0, 50⟩, |(100 : ℝ) - 0|, .axis .x⟩] = 100 := by
    rw [totalPathLength_eq_sum]
    simp only [List.map_cons, List.map_nil, List.sum_cons, List.sum_nil, add_zero]
    norm_num
  refine ⟨hroute2.symm, htotal2.symm, by simp, by norm_num, by norm_num, ?_⟩
  exact getPositionAtProgress_clamps_at_end ⟨0, 0, 50⟩ ⟨100, 0, 50⟩ "x" .right .left
    0 1 100 _ hroute2.symm htotal2.symm (by simp) (by norm_num) (by norm_num)

/-- Witness: updatePath_equal_endpoints applied at p = (1,2,3) with the
non-direct route "auto" and extension 5. -/
theorem updatePath_equal_endpoints_witness :
    ("auto" : String) ≠ "direct" ∧
    (updatePath ⟨1, 2, 3⟩ ⟨1, 2, 3⟩ "auto" .top .bottom 0 = [] ∧
      updatePath ⟨1, 2, 3⟩ ⟨1, 2, 3⟩ "direct" .top .bottom 5 =
        [{ start := ⟨1, 2, 3⟩, endPt := ⟨1, 2, 3⟩, length := 0, axis := .direct }]) :=
  ⟨by decide, updatePath_equal_endpoints ⟨1, 2, 3⟩ "auto" .top .bottom 5 (by decide)⟩

end Iso
